import Mathlib

/-!
Verification of the gridImgViewer triage core (src/main.py).

The embedding models the interactive-thread state of `App`: the path list and
queue built by `_load_folder`, the 2×2 slot grid, the counters, the undo stack,
and a flat file system mapping absolute path strings to file contents.
File-system primitives (`shutil.copy2`, `shutil.move`, `send2trash`) act on
that map; OS-level failures of `send2trash` and `shutil.move` are supplied as
boolean oracles, mirroring the `try/except` structure of the source.
-/

namespace GridImgViewer

/-- Boolean lexicographic order on character lists, modelling Python's
string comparison used by `sorted(p.iterdir())`. -/
def charListLeb : List Char → List Char → Bool
  | [], _ => true
  | _ :: _, [] => false
  | a :: as, b :: bs => if a < b then true else if b < a then false else charListLeb as bs

/-- Insert a string into a sorted list of strings. -/
def insertSorted (x : String) : List String → List String
  | [] => [x]
  | y :: ys => if charListLeb x.data y.data then x :: y :: ys else y :: insertSorted x ys

/-- Sort a list of strings, modelling Python's `sorted` (total order on
strings, so any correct sort yields the same list). -/
def sortStrings : List String → List String
  | [] => []
  | x :: xs => insertSorted x (sortStrings xs)

/-- Final path component, as in `pathlib.Path(p).name`. -/
def fileName (p : String) : String :=
  String.mk ((p.data.reverse.takeWhile (fun ch => ch ≠ '/')).reverse)

/-- Directory part of a path (empty when there is no separator), as in
`pathlib.Path(p).parent` for the cases the program exercises. -/
def dirName (p : String) : String :=
  String.mk (((p.data.reverse.dropWhile (fun ch => ch ≠ '/')).drop 1).reverse)

/-- Join a directory and a file name with `/`, as in `directory / name`. -/
def joinPath (dir name : String) : String := dir ++ "/" ++ name

/-- Replace the final component of a path, as in `Path(p).with_name(n)`. -/
def withName (p newName : String) : String :=
  if dirName p = "" then newName else joinPath (dirName p) newName

/-- Split a file name into `(stem, suffix)` following `pathlib`: the suffix is
the part from the last dot on, provided that dot is neither the first nor the
last character of the name; otherwise the suffix is empty. -/
def stemSuffix (name : String) : String × String :=
  let rev := name.data.reverse
  let sufRev := rev.takeWhile (fun ch => ch ≠ '.')
  let restRev := rev.dropWhile (fun ch => ch ≠ '.')
  if restRev = [] ∨ restRev.drop 1 = [] ∨ sufRev = [] then (name, "")
  else (String.mk ((restRev.drop 1).reverse), String.mk ('.' :: sufRev.reverse))

/-- ASCII lower-casing, modelling Python's `str.lower` on extension strings. -/
def strLower (s : String) : String := String.mk (s.data.map Char.toLower)

/-- Decimal digit character. -/
def digitChar : Nat → Char
  | 0 => '0' | 1 => '1' | 2 => '2' | 3 => '3' | 4 => '4'
  | 5 => '5' | 6 => '6' | 7 => '7' | 8 => '8' | _ => '9'

/-- Fuel-driven decimal printer (the fuel makes it structurally recursive). -/
def natDecAux : Nat → Nat → List Char
  | 0, _ => []
  | fuel + 1, n => if n < 10 then [digitChar n] else natDecAux fuel (n / 10) ++ [digitChar (n % 10)]

/-- Decimal digit list of a natural number, modelling Python `str(i)`. -/
def natDec (n : Nat) : List Char := natDecAux (n + 1) n

/-- Decimal string of a natural number, modelling the `{i}` f-string field. -/
def natDecStr (n : Nat) : String := String.mk (natDec n)

/-- Flat file system: an association list from absolute path to file content. -/
abbrev FS := List (String × String)

/-- Content of the file at `p`, `none` when absent. -/
def fsRead : FS → String → Option String
  | [], _ => none
  | (q, v) :: rest, p => if q = p then some v else fsRead rest p

/-- `Path(p).exists()` on the flat file system. -/
def fsExists (fs : FS) (p : String) : Bool := (fsRead fs p).isSome

/-- Create or overwrite the file at `p` with content `v`. -/
def fsSet : FS → String → String → FS
  | [], p, v => [(p, v)]
  | (q, w) :: rest, p, v => if q = p then (p, v) :: rest else (q, w) :: fsSet rest p v

/-- Remove the file at `p` (modelling a successful `send2trash` / move-out). -/
def fsRemove : FS → String → FS
  | [], _ => []
  | (q, w) :: rest, p => if q = p then fsRemove rest p else (q, w) :: fsRemove rest p

/-- Numeric value of a decimal digit list (left inverse of the printer). -/
def decVal (cs : List Char) : Nat := cs.foldl (fun a ch => a * 10 + (ch.toNat - 48)) 0

/-- Bounded linear search for the first index accepted by `free`, starting at
`start`; the fuel argument makes the `while True` loops of `_unique_target`
and `_undo_last` structurally recursive. -/
def searchFrom (free : Nat → Bool) : Nat → Nat → Nat
  | 0, i => i
  | fuel + 1, i => if free i then i else searchFrom free fuel (i + 1)

/-- `GRID_ROWS` from main.py. -/
def gridRows : Nat := 2

/-- `GRID_COLS` from main.py. -/
def gridCols : Nat := 2

/-- Flat index of slot `(r, c)` in the row-major slot list. -/
def idx (r c : Nat) : Nat := r * gridCols + c

/-- `operation kind` field of an undo record ("delete" or "keep" in main.py). -/
inductive OpKind where
  | delete
  | keep
deriving DecidableEq

/-- One undo-stack entry `(r, c, path, backup_path, op_type)` from main.py. -/
structure DispRecord where
  r : Nat
  c : Nat
  original : String
  backup : String
  kind : OpKind
deriving DecidableEq

/-- Interactive-thread state of `App`: counters are `Int` because Python
integers are unbounded and the undo path clamps them with `max(0, ...)`. -/
structure AppState where
  fs : FS
  paths : List String
  queuePaths : List String
  totalDeleted : Int
  totalKept : Int
  totalSeen : Int
  undoStack : List (List DispRecord)
  slots : List (Option String)
  pixmaps : List (Option String)
  currentFolder : Option String
  bells : Nat
deriving DecidableEq

/-- The backup directory `<APPDATA>/gridImgViewer/session_restore`; the
environment-dependent base directory is abstracted to a fixed root. -/
def backupDirPath : String := "APPDATA/gridImgViewer/session_restore"

/-- Stand-in for `hashlib.sha1(path).hexdigest()`: a deterministic, computable
digest of the path string (the claims depend only on determinism). -/
def pathDigest (p : String) : String :=
  String.mk (natDec (p.data.foldl (fun h ch => h * 131 + ch.toNat) 7))

/-- `App._backup_for_path`: hash-named backup target preserving the suffix. -/
def backupFor (p : String) : String :=
  joinPath backupDirPath (pathDigest p ++ (stemSuffix (fileName p)).2)

/-- Keep-collision candidate `directory / f"{base}_{i}{suffix}"`. -/
def kCand (dir base suf : String) (i : Nat) : String :=
  joinPath dir (base ++ "_" ++ natDecStr i ++ suf)

/-- `App._unique_target`: the destination name itself when free, else the
first `base_i.suffix` (smallest `i ≥ 1`) that does not exist. -/
def uniqueTarget (fs : FS) (dir name : String) : String :=
  let base := (stemSuffix name).1
  let suf := (stemSuffix name).2
  let cand0 := joinPath dir (base ++ suf)
  if fsExists fs cand0 then
    kCand dir base suf
      (searchFrom (fun i => !(fsExists fs (kCand dir base suf i))) (fs.length + 1) 1)
  else cand0

/-- Restore-collision candidate `op.with_name(f"{stem}_restored_{i}{suffix}")`
from `App._undo_last`. -/
def rCand (orig : String) (i : Nat) : String :=
  withName orig
    ((stemSuffix (fileName orig)).1 ++ "_restored_" ++ natDecStr i ++ (stemSuffix (fileName orig)).2)

/-- Index chosen by the `while True` rename loop of `App._undo_last`: the
first `i ≥ 1` whose restore candidate does not exist. -/
def restoredIndex (fs : FS) (orig : String) : Nat :=
  searchFrom (fun i => !(fsExists fs (rCand orig i))) (fs.length + 1) 1

/-- Restoration path chosen by `App._undo_last` for a discard record: the
original path when free, else the first `stem_restored_i.suffix` that does
not exist. -/
def restoredTarget (fs : FS) (orig : String) : String :=
  if fsExists fs orig then rCand orig (restoredIndex fs orig) else orig

/-- `App._next_image`: pop the queue front, or `None` when exhausted. -/
def nextImage (s : AppState) : Option String × AppState :=
  match s.queuePaths with
  | [] => (none, s)
  | p :: rest => (some p, { s with queuePaths := rest })

/-- `App._fill_slot`: assign the next queued path (or empty) to slot `(r, c)`;
a non-empty assignment increments `total_seen` and requests the thumbnail
(delivered asynchronously by `onThumbReady`), an empty one clears the pixmap. -/
def fillSlot (s : AppState) (r c : Nat) : AppState :=
  match nextImage s with
  | (none, s₁) =>
    { s₁ with slots := s₁.slots.set (idx r c) none, pixmaps := s₁.pixmaps.set (idx r c) none }
  | (some p, s₁) =>
    { s₁ with slots := s₁.slots.set (idx r c) (some p), totalSeen := s₁.totalSeen + 1 }

/-- `App._fill_all`: fill the four slots in row-major order. -/
def fillAll (s : AppState) : AppState :=
  fillSlot (fillSlot (fillSlot (fillSlot s 0 0) 0 1) 1 0) 1 1

/-- `App._on_thumb_ready`: apply a delivered thumbnail only when the slot is
still assigned to the delivered path (stale deliveries are discarded). -/
def onThumbReady (s : AppState) (r c : Nat) (path : String) : AppState :=
  if s.slots.getD (idx r c) none = some path then
    { s with pixmaps := s.pixmaps.set (idx r c) (some path) }
  else s

/-- `App._insert_into_slot`: place a restored path directly into a slot and
request its thumbnail (bypassing the queue). -/
def insertIntoSlot (s : AppState) (r c : Nat) (path : String) : AppState :=
  { s with slots := s.slots.set (idx r c) (some path) }

/-- Loop body of `App._delete_slots`: empty slot rings the bell; otherwise
copy to the backup store (an unreadable source, or a backup target equal to
the source, makes `shutil.copy2` raise, recording an empty backup reference),
then `send2trash` (incrementing `total_deleted` only when it succeeds, i.e.
the file exists and the OS call `trashOk` accepts it), and append the record
to the batch in every occupied case. -/
def deleteStep (trashOk : String → Bool) (acc : AppState × List DispRecord) (rc : Nat × Nat) :
    AppState × List DispRecord :=
  match acc.1.slots.getD (idx rc.1 rc.2) none with
  | none => ({ acc.1 with bells := acc.1.bells + 1 }, acc.2)
  | some path =>
    let s := acc.1
    let copyRes : FS × String :=
      match fsRead s.fs path with
      | some cnt =>
        if backupFor path ≠ path then (fsSet s.fs (backupFor path) cnt, backupFor path)
        else (s.fs, "")
      | none => (s.fs, "")
    let trashRes : FS × Int :=
      if fsExists copyRes.1 path && trashOk path then (fsRemove copyRes.1 path, s.totalDeleted + 1)
      else (copyRes.1, s.totalDeleted)
    ({ s with fs := trashRes.1, totalDeleted := trashRes.2 },
      acc.2 ++ [⟨rc.1, rc.2, path, copyRes.2, OpKind.delete⟩])

/-- `App._delete_slots`: process every coordinate, push the batch when
non-empty, then refill exactly the batched slots. -/
def deleteSlots (trashOk : String → Bool) (s : AppState) (coords : List (Nat × Nat)) : AppState :=
  let res := coords.foldl (deleteStep trashOk) (s, [])
  let s₂ := if res.2 = [] then res.1 else { res.1 with undoStack := res.2 :: res.1.undoStack }
  res.2.foldl (fun st rec => fillSlot st rec.r rec.c) s₂

/-- `App._kept_dir`: the `kept` subdirectory of the active folder, `None`
before any folder is loaded. -/
def keptDir (s : AppState) : Option String :=
  match s.currentFolder with
  | some f => if f = "" then none else some (joinPath f "kept")
  | none => none

/-- Loop body of `App._keep_slots`: empty slot rings the bell; otherwise move
the file to a collision-free name in the kept directory; a failing move
(missing source or OS failure `moveOk`) leaves state untouched and records
nothing (`total_kept` increments only after a successful move). -/
def keepStep (moveOk : String → Bool) (keptD : String) (acc : AppState × List DispRecord)
    (rc : Nat × Nat) : AppState × List DispRecord :=
  match acc.1.slots.getD (idx rc.1 rc.2) none with
  | none => ({ acc.1 with bells := acc.1.bells + 1 }, acc.2)
  | some path =>
    let s := acc.1
    let target := uniqueTarget s.fs keptD (fileName path)
    match fsRead s.fs path with
    | some cnt =>
      if moveOk path then
        ({ s with fs := fsSet (fsRemove s.fs path) target cnt, totalKept := s.totalKept + 1 },
          acc.2 ++ [⟨rc.1, rc.2, path, target, OpKind.keep⟩])
      else (s, acc.2)
    | none => (s, acc.2)

/-- `App._keep_slots`: bell and return when no folder is active; otherwise
process every coordinate, push the batch when non-empty, refill the batched
slots. -/
def keepSlots (moveOk : String → Bool) (s : AppState) (coords : List (Nat × Nat)) : AppState :=
  match keptDir s with
  | none => { s with bells := s.bells + 1 }
  | some kd =>
    let res := coords.foldl (keepStep moveOk kd) (s, [])
    let s₂ := if res.2 = [] then res.1 else { res.1 with undoStack := res.2 :: res.1.undoStack }
    res.2.foldl (fun st rec => fillSlot st rec.r rec.c) s₂

/-- One record of `App._undo_last`: a discard restores the backup copy to a
collision-free location and clamps `total_deleted` at zero; a keep moves the
kept file back and clamps `total_kept`; a missing backup/destination skips
the record. -/
def undoRecord (s : AppState) (rec : DispRecord) : AppState :=
  match rec.kind with
  | OpKind.delete =>
    if rec.backup = "" ∨ fsExists s.fs rec.backup = false then s
    else
      match fsRead s.fs rec.backup with
      | none => s
      | some cnt =>
        let restored := restoredTarget s.fs rec.original
        insertIntoSlot
          { s with fs := fsSet s.fs restored cnt, totalDeleted := max 0 (s.totalDeleted - 1) }
          rec.r rec.c restored
  | OpKind.keep =>
    if rec.backup = "" ∨ fsExists s.fs rec.backup = false then s
    else
      match fsRead s.fs rec.backup with
      | none => s
      | some cnt =>
        let restored :=
          if fsExists s.fs rec.original then
            uniqueTarget s.fs (dirName rec.original) (fileName rec.original)
          else rec.original
        insertIntoSlot
          { s with fs := fsSet (fsRemove s.fs rec.backup) restored cnt,
                   totalKept := max 0 (s.totalKept - 1) }
          rec.r rec.c restored

/-- `App._undo_last`: bell on an empty stack, otherwise pop the most recent
batch and process each record independently. -/
def undoLast (s : AppState) : AppState :=
  match s.undoStack with
  | [] => { s with bells := s.bells + 1 }
  | batch :: rest => batch.foldl undoRecord { s with undoStack := rest }

/-- Supported image extensions from `App._load_folder`. -/
def supportedExts : List String := [".jpg", ".jpeg", ".png", ".gif", ".bmp", ".tiff", ".webp"]

/-- Case-insensitive extension filter `entry.suffix.lower() in exts`. -/
def extSupported (p : String) : Bool := supportedExts.contains (strLower (stemSuffix (fileName p)).2)

/-- Strip a known leading character sequence, `none` on mismatch. -/
def startsAfter : List Char → List Char → Option (List Char)
  | [], rest => some rest
  | _ :: _, [] => none
  | a :: as, b :: bs => if a = b then startsAfter as bs else none

/-- Non-recursive containment: `p` is `folder/<name>` with a non-empty,
separator-free name (exactly the entries `Path(folder).iterdir()` yields). -/
def isDirectChild (folder p : String) : Bool :=
  match startsAfter (folder.data ++ ['/']) p.data with
  | none => false
  | some rest => !rest.isEmpty && !rest.contains '/'

/-- The sorted, extension-filtered listing built by `App._load_folder`
(a missing folder yields the same empty listing as an empty one). -/
def listFolder (fs : FS) (folder : String) : List String :=
  (sortStrings (fs.map Prod.fst)).filter (fun p => isDirectChild folder p && extSupported p)

/-- `App._load_folder`: rebuild `paths` and the queue from the listing, zero
`total_deleted` and `total_seen`, record the folder, clear the four slots,
then fill all slots. (`total_kept` and `undo_stack` are not touched.) -/
def loadFolder (s : AppState) (folder : String) : AppState :=
  fillAll
    { s with
      paths := listFolder s.fs folder
      queuePaths := listFolder s.fs folder
      totalDeleted := 0
      totalSeen := 0
      currentFolder := some folder
      slots := List.replicate 4 none
      pixmaps := List.replicate 4 none }

/-- `App.__init__` core state over an arbitrary initial disk. -/
def initState (fs : FS) : AppState where
  fs := fs
  paths := []
  queuePaths := []
  totalDeleted := 0
  totalKept := 0
  totalSeen := 0
  undoStack := []
  slots := List.replicate 4 none
  pixmaps := List.replicate 4 none
  currentFolder := none
  bells := 0

/-- Number of coordinates of a dispose call whose slot is currently empty. -/
def emptyCount (s : AppState) (coords : List (Nat × Nat)) : Nat :=
  coords.countP (fun rc => (s.slots.getD (idx rc.1 rc.2) none).isNone)

/-- One interactive-thread operation of the application. -/
inductive Step : AppState → AppState → Prop where
  | fill (s : AppState) (r c : Nat) : Step s (fillSlot s r c)
  | fillA (s : AppState) : Step s (fillAll s)
  | thumb (s : AppState) (r c : Nat) (p : String) : Step s (onThumbReady s r c p)
  | del (s : AppState) (trashOk : String → Bool) (coords : List (Nat × Nat)) :
      Step s (deleteSlots trashOk s coords)
  | keepOp (s : AppState) (moveOk : String → Bool) (coords : List (Nat × Nat)) :
      Step s (keepSlots moveOk s coords)
  | undo (s : AppState) : Step s (undoLast s)
  | load (s : AppState) (folder : String) : Step s (loadFolder s folder)

/-- States reachable from a fresh application start on some disk. -/
def Reachable (s : AppState) : Prop :=
  ∃ fs₀, Relation.ReflTransGen Step (initState fs₀) s

/-- A state whose undo stack holds one discard record whose backup exists and
whose original location has been re-occupied (a restore collision). -/
def c7State : AppState where
  fs := [("F/a.jpg", "NEW"), ("BKP/x.jpg", "OLD")]
  paths := ["F/a.jpg"]
  queuePaths := []
  totalDeleted := 1
  totalKept := 0
  totalSeen := 1
  undoStack := [[⟨0, 0, "F/a.jpg", "BKP/x.jpg", OpKind.delete⟩]]
  slots := [some "F/a.jpg", none, none, none]
  pixmaps := [none, none, none, none]
  currentFolder := some "F"
  bells := 0

/-- A small mid-session state used by concrete counterexamples and witnesses:
folder `F` is loaded, slot `(0,0)` shows `F/a.jpg`, one path is queued, one
keep was performed earlier. -/
def demoState : AppState where
  fs := [("F/a.jpg", "A"), ("F/b.jpg", "B")]
  paths := ["F/a.jpg", "F/b.jpg"]
  queuePaths := ["F/b.jpg"]
  totalDeleted := 0
  totalKept := 1
  totalSeen := 1
  undoStack := [[⟨0, 0, "G/old.png", "G/kept/old.png", OpKind.keep⟩]]
  slots := [some "F/a.jpg", none, none, none]
  pixmaps := [some "F/a.jpg", none, none, none]
  currentFolder := some "F"
  bells := 0

theorem fsRead_fsSet_self (fs : FS) (p v : String) : fsRead (fsSet fs p v) p = some v := by
  induction fs with
  | nil => simp [fsSet, fsRead]
  | cons e rest ih =>
    obtain ⟨q, w⟩ := e
    by_cases h : q = p <;> simp [fsSet, fsRead, h, ih]

theorem fsRead_fsSet_ne (fs : FS) (p v q : String) (h : q ≠ p) :
    fsRead (fsSet fs p v) q = fsRead fs q := by
  have h' : p ≠ q := Ne.symm h
  induction fs with
  | nil => simp [fsSet, fsRead, h']
  | cons e rest ih =>
    obtain ⟨a, b⟩ := e
    by_cases ha : a = p
    · subst ha
      simp [fsSet, fsRead, h']
    · by_cases hb : a = q <;> simp [fsSet, fsRead, ha, hb, ih, h, h']

theorem fsRead_fsRemove_self (fs : FS) (p : String) : fsRead (fsRemove fs p) p = none := by
  induction fs with
  | nil => simp [fsRemove, fsRead]
  | cons e rest ih =>
    obtain ⟨a, b⟩ := e
    by_cases h : a = p <;> simp [fsRemove, fsRead, h, ih]

theorem fsRead_fsRemove_ne (fs : FS) (p q : String) (h : q ≠ p) :
    fsRead (fsRemove fs p) q = fsRead fs q := by
  have h' : p ≠ q := Ne.symm h
  induction fs with
  | nil => simp [fsRemove, fsRead]
  | cons e rest ih =>
    obtain ⟨a, b⟩ := e
    by_cases ha : a = p
    · subst ha
      simp [fsRemove, fsRead, h', ih]
    · by_cases hb : a = q <;> simp [fsRemove, fsRead, ha, hb, ih, h, h']

/-- Membership of an existing path among the file-system keys. -/
theorem mem_keys_of_fsRead (fs : FS) (p : String) (h : (fsRead fs p).isSome) :
    p ∈ fs.map Prod.fst := by
  induction fs with
  | nil => simp [fsRead] at h
  | cons e rest ih =>
    obtain ⟨a, b⟩ := e
    by_cases ha : a = p
    · simp [ha]
    · simp [fsRead, ha] at h
      simp [ih h]

theorem natDecAux_fuel : ∀ (n f₁ f₂ : Nat), n < f₁ → n < f₂ → natDecAux f₁ n = natDecAux f₂ n := by
  intro n
  induction n using Nat.strong_induction_on with
  | _ n ih =>
    intro f₁ f₂ h₁ h₂
    cases f₁ with
    | zero => omega
    | succ g₁ =>
      cases f₂ with
      | zero => omega
      | succ g₂ =>
        by_cases h10 : n < 10
        · simp [natDecAux, h10]
        · have hd : n / 10 < n := Nat.div_lt_self (by omega) (by omega)
          have e := ih (n / 10) hd g₁ g₂ (by omega) (by omega)
          simp [natDecAux, h10, e]

theorem natDec_eq (n : Nat) :
    natDec n = if n < 10 then [digitChar n] else natDec (n / 10) ++ [digitChar (n % 10)] := by
  by_cases h : n < 10
  · simp [natDec, natDecAux, h]
  · have hd : n / 10 < n := Nat.div_lt_self (by omega) (by omega)
    have e : natDecAux n (n / 10) = natDecAux (n / 10 + 1) (n / 10) :=
      natDecAux_fuel (n / 10) n (n / 10 + 1) (by omega) (by omega)
    simp [natDec, natDecAux, h, e]

theorem digitChar_toNat : ∀ m, m < 10 → (digitChar m).toNat = 48 + m := by decide

theorem digitChar_range : ∀ m, m < 10 → 48 ≤ (digitChar m).toNat ∧ (digitChar m).toNat ≤ 57 := by
  decide

theorem decVal_append (cs : List Char) (d : Char) :
    decVal (cs ++ [d]) = decVal cs * 10 + (d.toNat - 48) := by
  simp [decVal, List.foldl_append]

theorem decVal_natDec (n : Nat) : decVal (natDec n) = n := by
  induction n using Nat.strong_induction_on with
  | _ n ih =>
    rw [natDec_eq]
    by_cases h : n < 10
    · simp [h, decVal, digitChar_toNat n h]
    · have hd : n / 10 < n := Nat.div_lt_self (by omega) (by omega)
      have hm : n % 10 < 10 := Nat.mod_lt _ (by omega)
      simp [h, decVal_append, ih (n / 10) hd, digitChar_toNat _ hm]
      omega

theorem natDec_inj (m n : Nat) (h : natDec m = natDec n) : m = n := by
  have hm := decVal_natDec m
  have hn := decVal_natDec n
  rw [h] at hm
  omega

theorem natDec_ne_nil (n : Nat) : natDec n ≠ [] := by
  rw [natDec_eq]
  by_cases h : n < 10 <;> simp [h]

theorem natDec_all_digits (n : Nat) :
    ∀ c ∈ natDec n, 48 ≤ c.toNat ∧ c.toNat ≤ 57 := by
  induction n using Nat.strong_induction_on with
  | _ n ih =>
    rw [natDec_eq]
    by_cases h : n < 10
    · simp [h]
      exact digitChar_range n h
    · have hd : n / 10 < n := Nat.div_lt_self (by omega) (by omega)
      have hm : n % 10 < 10 := Nat.mod_lt _ (by omega)
      simp [h]
      intro c hc
      rcases hc with hc | hc
      · exact ih (n / 10) hd c hc
      · rw [hc]
        exact digitChar_range _ hm

theorem searchFrom_spec (free : Nat → Bool) :
    ∀ fuel start, (∃ k, k < fuel ∧ free (start + k) = true) →
      free (searchFrom free fuel start) = true ∧
      start ≤ searchFrom free fuel start ∧
      ∀ m, start ≤ m → m < searchFrom free fuel start → free m = false := by
  intro fuel
  induction fuel with
  | zero =>
    intro start h
    obtain ⟨k, hk, _⟩ := h
    omega
  | succ g ih =>
    intro start h
    by_cases hf : free start = true
    · refine ⟨by simp [searchFrom, hf], by simp [searchFrom, hf], ?_⟩
      simp [searchFrom, hf]
      omega
    · have hfX : free start = false := by
        cases hb : free start
        · rfl
        · exact absurd hb hf
      have h' : ∃ k, k < g ∧ free (start + 1 + k) = true := by
        obtain ⟨k, hk, hfree⟩ := h
        cases k with
        | zero => simp at hfree; exact absurd hfree hf
        | succ k' =>
          refine ⟨k', by omega, ?_⟩
          have e : start + 1 + k' = start + (k' + 1) := by omega
          rw [e]
          exact hfree
      obtain ⟨hfree, hle, hmin⟩ := ih (start + 1) h'
      refine ⟨by simp [searchFrom, hfX, hfree], by simp [searchFrom, hfX]; omega, ?_⟩
      intro m hm₁ hm₂
      simp [searchFrom, hfX] at hm₂
      by_cases hms : m = start
      · rw [hms]; exact hfX
      · exact hmin m (by omega) hm₂

/-- Pigeonhole: among `fs.length + 1` pairwise distinct candidate names, at
least one is not a key of the (finite) file system. -/
theorem exists_free_index (fs : FS) (cand : Nat → String)
    (hinj : ∀ i j, cand i = cand j → i = j) :
    ∃ k, k < fs.length + 1 ∧ fsExists fs (cand (1 + k)) = false := by
  by_contra hcon
  push_neg at hcon
  have hmem : ∀ k, k < fs.length + 1 → cand (1 + k) ∈ fs.map Prod.fst := by
    intro k hk
    have hx := hcon k hk
    have hx' : fsExists fs (cand (1 + k)) = true := by
      cases hb : fsExists fs (cand (1 + k))
      · exact absurd hb hx
      · rfl
    exact mem_keys_of_fsRead fs _ hx'
  have hinj' : Function.Injective (fun k : Nat => cand (1 + k)) := by
    intro a b hab
    have := hinj (1 + a) (1 + b) hab
    omega
  have hnd : ((List.range (fs.length + 1)).map (fun k => cand (1 + k))).Nodup :=
    (List.nodup_range _).map hinj'
  have hsub : ∀ x ∈ (List.range (fs.length + 1)).map (fun k => cand (1 + k)),
      x ∈ fs.map Prod.fst := by
    intro x hx
    rw [List.mem_map] at hx
    obtain ⟨k, hk, rfl⟩ := hx
    exact hmem k (List.mem_range.1 hk)
  have h1 : ((List.range (fs.length + 1)).map (fun k => cand (1 + k))).toFinset.card
      = fs.length + 1 := by
    rw [List.toFinset_card_of_nodup hnd]
    simp
  have h2 : ((List.range (fs.length + 1)).map (fun k => cand (1 + k))).toFinset
      ⊆ (fs.map Prod.fst).toFinset := by
    intro x hx
    exact List.mem_toFinset.2 (hsub x (List.mem_toFinset.1 hx))
  have h3 := Finset.card_le_card h2
  have h4 : (fs.map Prod.fst).toFinset.card ≤ fs.length := by
    have := (fs.map Prod.fst).toFinset_card_le
    simpa using this
  omega

theorem list_getD_set_self {α : Type} (l : List α) (n : Nat) (a d : α) (h : n < l.length) :
    (l.set n a).getD n d = a := by
  induction l generalizing n with
  | nil => simp at h
  | cons x xs ih =>
    cases n with
    | zero => rfl
    | succ m =>
      simp at h
      simpa [List.set, List.getD] using ih m (by omega)

theorem list_set_of_get {α : Type} (l : List α) :
    ∀ n a, l[n]? = some a → l.set n a = l := by
  induction l with
  | nil => intro n a h; simp at h
  | cons x xs ih =>
    intro n a h
    cases n with
    | zero => simp at h; simp [h]
    | succ m => simpa [List.set] using ih m a (by simpa using h)

theorem foldl_invariant {α β : Type} (f : α → β → α) (P : α → Prop)
    (h : ∀ a b, P a → P (f a b)) : ∀ (l : List β) (a : α), P a → P (l.foldl f a) := by
  intro l
  induction l with
  | nil => intro a ha; exact ha
  | cons x xs ih => intro a ha; exact ih (f a x) (h a x ha)

@[simp] theorem fillSlot_paths (s : AppState) (r c : Nat) :
    (fillSlot s r c).paths = s.paths := by
  cases hq : s.queuePaths <;> simp [fillSlot, nextImage, hq]

@[simp] theorem fillSlot_totalDeleted (s : AppState) (r c : Nat) :
    (fillSlot s r c).totalDeleted = s.totalDeleted := by
  cases hq : s.queuePaths <;> simp [fillSlot, nextImage, hq]

@[simp] theorem fillSlot_totalKept (s : AppState) (r c : Nat) :
    (fillSlot s r c).totalKept = s.totalKept := by
  cases hq : s.queuePaths <;> simp [fillSlot, nextImage, hq]

@[simp] theorem fillSlot_undoStack (s : AppState) (r c : Nat) :
    (fillSlot s r c).undoStack = s.undoStack := by
  cases hq : s.queuePaths <;> simp [fillSlot, nextImage, hq]

@[simp] theorem fillSlot_fs (s : AppState) (r c : Nat) :
    (fillSlot s r c).fs = s.fs := by
  cases hq : s.queuePaths <;> simp [fillSlot, nextImage, hq]

@[simp] theorem fillSlot_bells (s : AppState) (r c : Nat) :
    (fillSlot s r c).bells = s.bells := by
  cases hq : s.queuePaths <;> simp [fillSlot, nextImage, hq]

@[simp] theorem fillSlot_currentFolder (s : AppState) (r c : Nat) :
    (fillSlot s r c).currentFolder = s.currentFolder := by
  cases hq : s.queuePaths <;> simp [fillSlot, nextImage, hq]

@[simp] theorem onThumbReady_counters (s : AppState) (r c : Nat) (p : String) :
    (onThumbReady s r c p).totalSeen = s.totalSeen ∧
    (onThumbReady s r c p).totalDeleted = s.totalDeleted ∧
    (onThumbReady s r c p).totalKept = s.totalKept := by
  unfold onThumbReady
  split <;> simp

/-- Claim C6: assigning a non-empty Backlog entry to a slot increments `seen` by
exactly one at assignment time, an empty assignment leaves `seen` unchanged,
and a thumbnail delivery (the only decode-completion effect on the state)
never changes `seen`, so the increment is independent of decode outcome. -/
theorem c6_seen_exactly_once (s : AppState) (r c : Nat) :
    ((fillSlot s r c).totalSeen = s.totalSeen + if s.queuePaths.isEmpty then 0 else 1) ∧
    ∀ p, (onThumbReady s r c p).totalSeen = s.totalSeen := by
  constructor
  · cases hq : s.queuePaths <;> simp [fillSlot, nextImage, hq]
  · intro p
    unfold onThumbReady
    split <;> simp

/-- Claim C9: undoing with an empty Undo Stack emits exactly one bell signal and
changes nothing else: no counters, no slots, no file-system state. -/
theorem c9_undo_empty_stack (s : AppState) (h : s.undoStack = []) :
    undoLast s = { s with bells := s.bells + 1 } := by
  unfold undoLast
  rw [h]

/-- Witness for C9 at the freshly initialised application state. -/
theorem c9_undo_empty_stack_witness :
    undoLast (initState []) = { initState [] with bells := (initState []).bells + 1 } :=
  c9_undo_empty_stack (initState []) rfl

@[simp] theorem deleteStep_slots (t : String → Bool) (acc : AppState × List DispRecord)
    (rc : Nat × Nat) : (deleteStep t acc rc).1.slots = acc.1.slots := by
  unfold deleteStep
  cases h : acc.1.slots.getD (idx rc.1 rc.2) none <;> simp [h]

theorem deleteStep_bells (t : String → Bool) (acc : AppState × List DispRecord) (rc : Nat × Nat) :
    (deleteStep t acc rc).1.bells
      = acc.1.bells + if (acc.1.slots.getD (idx rc.1 rc.2) none).isNone then 1 else 0 := by
  unfold deleteStep
  cases h : acc.1.slots.getD (idx rc.1 rc.2) none <;> simp [h]

@[simp] theorem keepStep_slots (m : String → Bool) (kd : String) (acc : AppState × List DispRecord)
    (rc : Nat × Nat) : (keepStep m kd acc rc).1.slots = acc.1.slots := by
  unfold keepStep
  cases h : acc.1.slots.getD (idx rc.1 rc.2) none
  · simp [h]
  · simp only [h]
    split
    · split <;> rfl
    · rfl

theorem keepStep_bells (m : String → Bool) (kd : String) (acc : AppState × List DispRecord)
    (rc : Nat × Nat) :
    (keepStep m kd acc rc).1.bells
      = acc.1.bells + if (acc.1.slots.getD (idx rc.1 rc.2) none).isNone then 1 else 0 := by
  unfold keepStep
  cases h : acc.1.slots.getD (idx rc.1 rc.2) none
  · simp [h]
  · simp only [h]
    split
    · split <;> simp
    · simp

theorem emptyCount_congr (s₁ s₂ : AppState) (h : s₁.slots = s₂.slots)
    (coords : List (Nat × Nat)) : emptyCount s₁ coords = emptyCount s₂ coords := by
  unfold emptyCount
  rw [h]

theorem deleteFold_bells_slots (t : String → Bool) (coords : List (Nat × Nat)) :
    ∀ acc : AppState × List DispRecord,
      (coords.foldl (deleteStep t) acc).1.bells = acc.1.bells + emptyCount acc.1 coords ∧
      (coords.foldl (deleteStep t) acc).1.slots = acc.1.slots := by
  induction coords with
  | nil => intro acc; simp [emptyCount]
  | cons rc rest ih =>
    intro acc
    obtain ⟨hb, hs⟩ := ih (deleteStep t acc rc)
    refine ⟨?_, by rw [List.foldl_cons, hs, deleteStep_slots]⟩
    rw [List.foldl_cons, hb, deleteStep_bells,
      emptyCount_congr _ _ (deleteStep_slots t acc rc) rest]
    unfold emptyCount
    rw [List.countP_cons]
    by_cases hif : (acc.1.slots.getD (idx rc.1 rc.2) none).isNone <;> simp [hif] <;> omega

theorem keepFold_bells_slots (m : String → Bool) (kd : String) (coords : List (Nat × Nat)) :
    ∀ acc : AppState × List DispRecord,
      (coords.foldl (keepStep m kd) acc).1.bells = acc.1.bells + emptyCount acc.1 coords ∧
      (coords.foldl (keepStep m kd) acc).1.slots = acc.1.slots := by
  induction coords with
  | nil => intro acc; simp [emptyCount]
  | cons rc rest ih =>
    intro acc
    obtain ⟨hb, hs⟩ := ih (keepStep m kd acc rc)
    refine ⟨?_, by rw [List.foldl_cons, hs, keepStep_slots]⟩
    rw [List.foldl_cons, hb, keepStep_bells,
      emptyCount_congr _ _ (keepStep_slots m kd acc rc) rest]
    unfold emptyCount
    rw [List.countP_cons]
    by_cases hif : (acc.1.slots.getD (idx rc.1 rc.2) none).isNone <;> simp [hif] <;> omega

theorem refillFold_bells (batch : List DispRecord) : ∀ s : AppState,
    (batch.foldl (fun st rec => fillSlot st rec.r rec.c) s).bells = s.bells := by
  induction batch with
  | nil => intro s; rfl
  | cons rec rest ih => intro s; rw [List.foldl_cons, ih, fillSlot_bells]

theorem deleteSlots_bells (t : String → Bool) (s : AppState) (coords : List (Nat × Nat)) :
    (deleteSlots t s coords).bells = s.bells + emptyCount s coords := by
  obtain ⟨hb, _⟩ := deleteFold_bells_slots t coords (s, [])
  unfold deleteSlots
  rw [refillFold_bells]
  by_cases hbatch : (coords.foldl (deleteStep t) (s, [])).2 = [] <;> simp [hbatch, hb]

theorem keepSlots_bells (m : String → Bool) (s : AppState) (coords : List (Nat × Nat))
    (kd : String) (hkd : keptDir s = some kd) :
    (keepSlots m s coords).bells = s.bells + emptyCount s coords := by
  obtain ⟨hb, _⟩ := keepFold_bells_slots m kd coords (s, [])
  unfold keepSlots
  rw [hkd]
  rw [refillFold_bells]
  by_cases hbatch : (coords.foldl (keepStep m kd) (s, [])).2 = [] <;> simp [hbatch, hb]

/-- Claim C4, amended: for a dispose call (discard or keep with an active folder),
every empty coordinate is an individual no-op, and one "nothing to do" bell
is emitted per empty coordinate — a call covering k empty coordinates emits
k signals, not a single signal for the whole call. -/
theorem c4_empty_slot_signals (s : AppState) (coords : List (Nat × Nat))
    (trashOk moveOk : String → Bool) (h : keptDir s ≠ none) :
    (deleteSlots trashOk s coords).bells = s.bells + emptyCount s coords ∧
    (keepSlots moveOk s coords).bells = s.bells + emptyCount s coords := by
  cases hkd : keptDir s with
  | none => exact absurd hkd h
  | some kd => exact ⟨deleteSlots_bells trashOk s coords, keepSlots_bells moveOk s coords kd hkd⟩

/-- Claim C4, counterexample to the claim as stated: discarding two empty
coordinates in a single call rings the bell twice, not exactly once per call. -/
theorem c4_empty_slot_signals_counterexample :
    (initState []).slots.getD (idx 0 1) none = none ∧
    (initState []).slots.getD (idx 1 0) none = none ∧
    (deleteSlots (fun _ => true) (initState []) [(0, 1), (1, 0)]).bells = 2 ∧
    (deleteSlots (fun _ => true) (initState []) [(0, 1), (1, 0)]).bells
      ≠ (initState []).bells + 1 := by
  decide

/-- Witness for C4 on a concrete mid-session state. -/
theorem c4_empty_slot_signals_witness :
    (deleteSlots (fun _ => true) demoState [(0, 1)]).bells
      = demoState.bells + emptyCount demoState [(0, 1)] ∧
    (keepSlots (fun _ => true) demoState [(0, 1)]).bells
      = demoState.bells + emptyCount demoState [(0, 1)] :=
  c4_empty_slot_signals demoState [(0, 1)] (fun _ => true) (fun _ => true) (by decide)

theorem deleteStep_occupied_trashfail (t : String → Bool) (s : AppState)
    (batch : List DispRecord) (rc : Nat × Nat) (p cnt : String)
    (hslot : s.slots.getD (idx rc.1 rc.2) none = some p)
    (hfile : fsRead s.fs p = some cnt)
    (hbp : backupFor p ≠ p)
    (hno : t p = false) :
    deleteStep t (s, batch) rc
      = ({ s with fs := fsSet s.fs (backupFor p) cnt },
         batch ++ [⟨rc.1, rc.2, p, backupFor p, OpKind.delete⟩]) := by
  unfold deleteStep
  simp only [hslot]
  simp only [hfile]
  rw [if_pos hbp]
  simp [hno]

/-- Claim C3, amended: when the OS-level trash call fails on an occupied slot, the
discard counter does NOT increment (the increment sits after the trash call
inside the `try`), yet the record — with its backup reference — is still
appended to the Batch, the slot is still refilled from the queue, and the
file is still on disk. -/
theorem c3_trash_failure (trashOk : String → Bool) (s : AppState) (r c : Nat) (p cnt : String)
    (hslot : s.slots.getD (idx r c) none = some p)
    (hfile : fsRead s.fs p = some cnt)
    (hbp : backupFor p ≠ p)
    (hno : trashOk p = false)
    (hlen : idx r c < s.slots.length) :
    (deleteSlots trashOk s [(r, c)]).totalDeleted = s.totalDeleted ∧
    (deleteSlots trashOk s [(r, c)]).undoStack
      = [⟨r, c, p, backupFor p, OpKind.delete⟩] :: s.undoStack ∧
    (deleteSlots trashOk s [(r, c)]).slots.getD (idx r c) none = s.queuePaths.head? ∧
    fsRead (deleteSlots trashOk s [(r, c)]).fs p = some cnt := by
  unfold deleteSlots
  rw [List.foldl_cons, List.foldl_nil,
    deleteStep_occupied_trashfail trashOk s [] (r, c) p cnt hslot hfile hbp hno]
  have hread : fsRead (fsSet s.fs (backupFor p) cnt) p = some cnt := by
    rw [fsRead_fsSet_ne s.fs (backupFor p) cnt p (Ne.symm hbp)]
    exact hfile
  cases hq : s.queuePaths with
  | nil =>
    simp [fillSlot, nextImage, hq, hread]
    simp [List.getElem?_set_eq_of_lt _ hlen]
  | cons q qs =>
    simp [fillSlot, nextImage, hq, hread]
    simp [List.getElem?_set_eq_of_lt _ hlen]

/-- Claim C3, counterexample to the claim as stated: with an occupied slot, an
existing file, and a failing trash call, the discard counter stays unchanged
rather than incrementing. -/
theorem c3_trash_failure_counterexample :
    demoState.slots.getD (idx 0 0) none = some "F/a.jpg" ∧
    fsExists demoState.fs "F/a.jpg" = true ∧
    (deleteSlots (fun _ => false) demoState [(0, 0)]).totalDeleted = demoState.totalDeleted ∧
    (deleteSlots (fun _ => false) demoState [(0, 0)]).totalDeleted
      ≠ demoState.totalDeleted + 1 := by
  decide

/-- Witness for C3 on a concrete mid-session state. -/
theorem c3_trash_failure_witness :
    (deleteSlots (fun _ => false) demoState [(0, 0)]).totalDeleted = demoState.totalDeleted ∧
    (deleteSlots (fun _ => false) demoState [(0, 0)]).undoStack
      = [⟨0, 0, "F/a.jpg", backupFor "F/a.jpg", OpKind.delete⟩] :: demoState.undoStack ∧
    (deleteSlots (fun _ => false) demoState [(0, 0)]).slots.getD (idx 0 0) none
      = demoState.queuePaths.head? ∧
    fsRead (deleteSlots (fun _ => false) demoState [(0, 0)]).fs "F/a.jpg" = some "A" :=
  c3_trash_failure (fun _ => false) demoState 0 0 "F/a.jpg" "A" (by decide) (by decide)
    (by decide) rfl (by decide)

/-- Claim C8: a keep on an occupied slot whose move into the kept directory fails
leaves the application state entirely unchanged: the file stays at its path,
slot and counters are untouched, no record enters the Batch (so nothing is
pushed onto the undo stack), and the slot is not refilled. -/
theorem c8_keep_move_failure (moveOk : String → Bool) (s : AppState) (r c : Nat)
    (p kd : String)
    (hkd : keptDir s = some kd)
    (hslot : s.slots.getD (idx r c) none = some p)
    (hno : moveOk p = false) :
    keepSlots moveOk s [(r, c)] = s := by
  have hstep : keepStep moveOk kd (s, []) (r, c) = (s, []) := by
    unfold keepStep
    simp only [hslot]
    cases hr : fsRead s.fs p with
    | none => simp [hr]
    | some cnt => simp [hr, hno]
  unfold keepSlots
  rw [hkd]
  dsimp only
  rw [List.foldl_cons, List.foldl_nil, hstep]
  simp

/-- Witness for C8 on a concrete mid-session state. -/
theorem c8_keep_move_failure_witness :
    keepSlots (fun _ => false) demoState [(0, 0)] = demoState :=
  c8_keep_move_failure (fun _ => false) demoState 0 0 "F/a.jpg" "F/kept" (by decide)
    (by decide) rfl

theorem fillAll_q0 (fs : FS) (paths : List String) (d k seen : Int)
    (undo : List (List DispRecord)) (cf : Option String) (bells : Nat) :
    fillAll { fs := fs, paths := paths, queuePaths := [], totalDeleted := d, totalKept := k,
              totalSeen := seen, undoStack := undo, slots := List.replicate 4 none,
              pixmaps := List.replicate 4 none, currentFolder := cf, bells := bells }
      = { fs := fs, paths := paths, queuePaths := [], totalDeleted := d, totalKept := k,
          totalSeen := seen, undoStack := undo, slots := [none, none, none, none],
          pixmaps := [none, none, none, none], currentFolder := cf, bells := bells } := rfl

theorem fillAll_q1 (fs : FS) (paths : List String) (a : String) (d k seen : Int)
    (undo : List (List DispRecord)) (cf : Option String) (bells : Nat) :
    fillAll { fs := fs, paths := paths, queuePaths := [a], totalDeleted := d, totalKept := k,
              totalSeen := seen, undoStack := undo, slots := List.replicate 4 none,
              pixmaps := List.replicate 4 none, currentFolder := cf, bells := bells }
      = { fs := fs, paths := paths, queuePaths := [], totalDeleted := d, totalKept := k,
          totalSeen := seen + 1, undoStack := undo, slots := [some a, none, none, none],
          pixmaps := [none, none, none, none], currentFolder := cf, bells := bells } := rfl

theorem fillAll_q2 (fs : FS) (paths : List String) (a b : String) (d k seen : Int)
    (undo : List (List DispRecord)) (cf : Option String) (bells : Nat) :
    fillAll { fs := fs, paths := paths, queuePaths := [a, b], totalDeleted := d, totalKept := k,
              totalSeen := seen, undoStack := undo, slots := List.replicate 4 none,
              pixmaps := List.replicate 4 none, currentFolder := cf, bells := bells }
      = { fs := fs, paths := paths, queuePaths := [], totalDeleted := d, totalKept := k,
          totalSeen := seen + 1 + 1, undoStack := undo, slots := [some a, some b, none, none],
          pixmaps := [none, none, none, none], currentFolder := cf, bells := bells } := rfl

theorem fillAll_q3 (fs : FS) (paths : List String) (a b c : String) (d k seen : Int)
    (undo : List (List DispRecord)) (cf : Option String) (bells : Nat) :
    fillAll { fs := fs, paths := paths, queuePaths := [a, b, c], totalDeleted := d,
              totalKept := k, totalSeen := seen, undoStack := undo,
              slots := List.replicate 4 none, pixmaps := List.replicate 4 none,
              currentFolder := cf, bells := bells }
      = { fs := fs, paths := paths, queuePaths := [], totalDeleted := d, totalKept := k,
          totalSeen := seen + 1 + 1 + 1, undoStack := undo,
          slots := [some a, some b, some c, none], pixmaps := [none, none, none, none],
          currentFolder := cf, bells := bells } := rfl

theorem fillAll_q4 (fs : FS) (paths : List String) (a b c e : String) (rest : List String)
    (d k seen : Int) (undo : List (List DispRecord)) (cf : Option String) (bells : Nat) :
    fillAll { fs := fs, paths := paths, queuePaths := a :: b :: c :: e :: rest,
              totalDeleted := d, totalKept := k, totalSeen := seen, undoStack := undo,
              slots := List.replicate 4 none, pixmaps := List.replicate 4 none,
              currentFolder := cf, bells := bells }
      = { fs := fs, paths := paths, queuePaths := rest, totalDeleted := d, totalKept := k,
          totalSeen := seen + 1 + 1 + 1 + 1, undoStack := undo,
          slots := [some a, some b, some c, some e], pixmaps := [none, none, none, none],
          currentFolder := cf, bells := bells } := rfl

/-- Claim C5: loading a folder (which ends by filling all slots) populates exactly
`min(4, |F|)` slots, leaves `max(0, |F| − 4)` paths in the Backlog (`Nat`
subtraction is exactly that clamp), and sets the total counter — the length
of the retained path list — to `|F|`, where `|F|` is the length of the
supported-extension folder listing. -/
theorem c5_load_fill_counts (s : AppState) (folder : String) :
    (loadFolder s folder).slots.countP (fun o => o.isSome)
      = min 4 (listFolder s.fs folder).length ∧
    (loadFolder s folder).queuePaths.length = (listFolder s.fs folder).length - 4 ∧
    (loadFolder s folder).paths.length = (listFolder s.fs folder).length := by
  unfold loadFolder
  rcases hq : listFolder s.fs folder with _ | ⟨a, _ | ⟨b, _ | ⟨c, _ | ⟨e, rest⟩⟩⟩⟩
  · rw [fillAll_q0]
    refine ⟨by simp [List.countP_cons], by simp, rfl⟩
  · rw [fillAll_q1]
    refine ⟨by simp [List.countP_cons], by simp, rfl⟩
  · rw [fillAll_q2]
    refine ⟨by simp [List.countP_cons], by simp, rfl⟩
  · rw [fillAll_q3]
    refine ⟨by simp [List.countP_cons], by simp, rfl⟩
  · rw [fillAll_q4]
    refine ⟨?_, by simp, by simp⟩
    have hmin : min 4 (rest.length + 4) = 4 := Nat.min_eq_left (by omega)
    simp [List.countP_cons, hmin]

/-- Claim C2, amended: `load(folder)` rebuilds the path list and the Backlog from
the folder listing, clears the four slots (then immediately refills them, as
`_load_folder` ends with `_fill_all`), resets the discarded and seen
counters, and records the folder — but the kept counter and the undo history
are NOT reset: they persist unchanged across loads. -/
theorem c2_load_resets (s : AppState) (folder : String) :
    (loadFolder s folder).paths = listFolder s.fs folder ∧
    (loadFolder s folder).queuePaths = (listFolder s.fs folder).drop 4 ∧
    (loadFolder s folder).totalDeleted = 0 ∧
    (loadFolder s folder).totalSeen = ((min 4 (listFolder s.fs folder).length : Nat) : Int) ∧
    (loadFolder s folder).totalKept = s.totalKept ∧
    (loadFolder s folder).undoStack = s.undoStack ∧
    (loadFolder s folder).currentFolder = some folder := by
  unfold loadFolder
  rcases hq : listFolder s.fs folder with _ | ⟨a, _ | ⟨b, _ | ⟨c, _ | ⟨e, rest⟩⟩⟩⟩
  · rw [fillAll_q0]
    refine ⟨rfl, rfl, rfl, by simp, rfl, rfl, rfl⟩
  · rw [fillAll_q1]
    refine ⟨rfl, rfl, rfl, by simp, rfl, rfl, rfl⟩
  · rw [fillAll_q2]
    refine ⟨rfl, rfl, rfl, by simp, rfl, rfl, rfl⟩
  · rw [fillAll_q3]
    refine ⟨rfl, rfl, rfl, by simp, rfl, rfl, rfl⟩
  · rw [fillAll_q4]
    refine ⟨rfl, by simp, rfl, ?_, rfl, rfl, rfl⟩
    have hmin : min 4 (rest.length + 4) = 4 := Nat.min_eq_left (by omega)
    simp [hmin]

/-- Claim C2, counterexample to the claim as stated: loading a folder leaves a
previously accumulated kept counter and a non-empty undo history in place
instead of resetting them to their initial values. -/
theorem c2_load_resets_counterexample :
    demoState.totalKept ≠ 0 ∧
    (loadFolder demoState "F").totalKept = demoState.totalKept ∧
    (loadFolder demoState "F").totalKept ≠ 0 ∧
    (loadFolder demoState "F").undoStack ≠ [] := by
  decide

theorem joinPath_ne_empty (d n : String) : joinPath d n ≠ "" := by
  intro h
  have hd := congrArg String.data h
  have hslash : ("/" : String).data = ['/'] := rfl
  rw [joinPath, String.data_append, String.data_append, hslash] at hd
  simp at hd

theorem backupFor_ne_empty (p : String) : backupFor p ≠ "" :=
  joinPath_ne_empty backupDirPath (pathDigest p ++ (stemSuffix (fileName p)).2)

theorem slots_getElem_of_getD (l : List (Option String)) (n : Nat) (p : String)
    (h : l.getD n none = some p) : l[n]? = some (some p) := by
  rw [List.getD_eq_getElem?_getD] at h
  cases hh : l[n]? with
  | none => rw [hh] at h; simp at h
  | some o => rw [hh] at h; simp at h; rw [h]

theorem deleteStep_occupied_trashok (t : String → Bool) (s : AppState)
    (batch : List DispRecord) (rc : Nat × Nat) (p cnt : String)
    (hslot : s.slots.getD (idx rc.1 rc.2) none = some p)
    (hfile : fsRead s.fs p = some cnt)
    (hbp : backupFor p ≠ p)
    (hyes : t p = true) :
    deleteStep t (s, batch) rc
      = ({ s with fs := fsRemove (fsSet s.fs (backupFor p) cnt) p,
                  totalDeleted := s.totalDeleted + 1 },
         batch ++ [⟨rc.1, rc.2, p, backupFor p, OpKind.delete⟩]) := by
  unfold deleteStep
  simp only [hslot, hfile]
  rw [if_pos hbp]
  have hex : fsExists (fsSet s.fs (backupFor p) cnt) p = true := by
    unfold fsExists
    rw [fsRead_fsSet_ne _ _ _ _ (Ne.symm hbp), hfile]
    rfl
  simp [hex, hyes]

/-- Claim C1, amended: a discard on an occupied slot followed immediately by undo
restores the slot assignments and leaves the total, discarded, and kept
counters and the undo history exactly as before — but the Backlog cursor has
advanced by one (the path consumed by the interposed refill is dropped), so
`remaining` shrinks by one and `seen` grows by one, and the Backup Store
additionally retains the backup copy of the discarded file; the restored
file's on-disk path may differ only when a name collision occurred (here the
original location is free again, so the original path is reused). -/
theorem c1_discard_undo_roundtrip (trashOk : String → Bool) (s : AppState) (r c : Nat)
    (p cnt q : String) (qs : List String)
    (hslot : s.slots.getD (idx r c) none = some p)
    (hq : s.queuePaths = q :: qs)
    (hfile : fsRead s.fs p = some cnt)
    (hbp : backupFor p ≠ p)
    (hyes : trashOk p = true)
    (hd : 0 ≤ s.totalDeleted) :
    (undoLast (deleteSlots trashOk s [(r, c)])).totalDeleted = s.totalDeleted ∧
    (undoLast (deleteSlots trashOk s [(r, c)])).totalKept = s.totalKept ∧
    (undoLast (deleteSlots trashOk s [(r, c)])).paths = s.paths ∧
    (undoLast (deleteSlots trashOk s [(r, c)])).undoStack = s.undoStack ∧
    (undoLast (deleteSlots trashOk s [(r, c)])).slots = s.slots ∧
    (undoLast (deleteSlots trashOk s [(r, c)])).pixmaps = s.pixmaps ∧
    (undoLast (deleteSlots trashOk s [(r, c)])).bells = s.bells ∧
    (undoLast (deleteSlots trashOk s [(r, c)])).queuePaths = qs ∧
    (undoLast (deleteSlots trashOk s [(r, c)])).totalSeen = s.totalSeen + 1 ∧
    (∀ x, fsRead (undoLast (deleteSlots trashOk s [(r, c)])).fs x
      = if x = backupFor p then some cnt else fsRead s.fs x) := by
  have hds : deleteSlots trashOk s [(r, c)]
      = { s with fs := fsRemove (fsSet s.fs (backupFor p) cnt) p,
                 totalDeleted := s.totalDeleted + 1,
                 undoStack := [⟨r, c, p, backupFor p, OpKind.delete⟩] :: s.undoStack,
                 queuePaths := qs,
                 slots := s.slots.set (idx r c) (some q),
                 totalSeen := s.totalSeen + 1 } := by
    unfold deleteSlots
    rw [List.foldl_cons, List.foldl_nil,
      deleteStep_occupied_trashok trashOk s [] (r, c) p cnt hslot hfile hbp hyes]
    dsimp only
    rw [if_neg (by simp)]
    simp only [List.nil_append]
    rw [List.foldl_cons, List.foldl_nil]
    unfold fillSlot nextImage
    dsimp only
    rw [hq]
  rw [hds]
  have hrb : fsRead (fsRemove (fsSet s.fs (backupFor p) cnt) p) (backupFor p) = some cnt := by
    rw [fsRead_fsRemove_ne _ _ _ hbp, fsRead_fsSet_self]
  have hexp : fsExists (fsRemove (fsSet s.fs (backupFor p) cnt) p) p = false := by
    unfold fsExists
    rw [fsRead_fsRemove_self]
    rfl
  unfold undoLast
  dsimp only
  rw [List.foldl_cons, List.foldl_nil]
  unfold undoRecord
  dsimp only
  rw [if_neg (by simp [backupFor_ne_empty p, fsExists, hrb])]
  rw [hrb]
  dsimp only
  unfold restoredTarget
  rw [hexp]
  rw [if_neg (by simp)]
  unfold insertIntoSlot
  dsimp only
  have hsetset : (s.slots.set (idx r c) (some q)).set (idx r c) (some p)
      = s.slots := by
    rw [List.set_set]
    exact list_set_of_get s.slots (idx r c) (some p) (slots_getElem_of_getD _ _ _ hslot)
  have hdel : max 0 (s.totalDeleted + 1 - 1) = s.totalDeleted := by
    have he : s.totalDeleted + 1 - 1 = s.totalDeleted := by omega
    rw [he]
    exact max_eq_right hd
  refine ⟨hdel, rfl, rfl, rfl, hsetset, rfl, rfl, rfl, rfl, ?_⟩
  intro x
  by_cases hx : x = backupFor p
  · have hxp : x ≠ p := by rw [hx]; exact hbp
    rw [if_pos hx, fsRead_fsSet_ne _ _ _ _ hxp, hx, hrb]
  · by_cases hxp : x = p
    · subst hxp
      rw [if_neg hx, fsRead_fsSet_self, hfile]
    · rw [if_neg hx, fsRead_fsSet_ne _ _ _ _ hxp, fsRead_fsRemove_ne _ _ _ hxp,
        fsRead_fsSet_ne _ _ _ _ hx]

/-- Claim C1, counterexample to the claim as stated: from a state with a non-empty
Backlog and an occupied slot, discard followed immediately by undo changes
the Backlog cursor (the refill consumed a queued path), changes the `seen`
counter, and changes the Backup Store contents (the backup copy remains). -/
theorem c1_discard_undo_roundtrip_counterexample :
    demoState.queuePaths ≠ [] ∧
    demoState.slots.getD (idx 0 0) none ≠ none ∧
    (undoLast (deleteSlots (fun _ => true) demoState [(0, 0)])).queuePaths
      ≠ demoState.queuePaths ∧
    (undoLast (deleteSlots (fun _ => true) demoState [(0, 0)])).totalSeen
      ≠ demoState.totalSeen ∧
    fsRead (undoLast (deleteSlots (fun _ => true) demoState [(0, 0)])).fs
        (backupFor "F/a.jpg")
      ≠ fsRead demoState.fs (backupFor "F/a.jpg") := by
  decide

/-- Witness for C1 on a concrete mid-session state. -/
theorem c1_discard_undo_roundtrip_witness :
    (undoLast (deleteSlots (fun _ => true) demoState [(0, 0)])).totalDeleted
        = demoState.totalDeleted ∧
    (undoLast (deleteSlots (fun _ => true) demoState [(0, 0)])).slots = demoState.slots ∧
    (undoLast (deleteSlots (fun _ => true) demoState [(0, 0)])).queuePaths = [] ∧
    (undoLast (deleteSlots (fun _ => true) demoState [(0, 0)])).totalSeen
        = demoState.totalSeen + 1 ∧
    fsRead (undoLast (deleteSlots (fun _ => true) demoState [(0, 0)])).fs
        (backupFor "F/a.jpg") = some "A" := by
  have h := c1_discard_undo_roundtrip (fun _ => true) demoState 0 0 "F/a.jpg" "A" "F/b.jpg" []
    (by decide) rfl (by decide) (by decide) rfl (by decide)
  refine ⟨h.1, h.2.2.2.2.1, h.2.2.2.2.2.2.2.1, h.2.2.2.2.2.2.2.2.1, ?_⟩
  have hx := h.2.2.2.2.2.2.2.2.2 (backupFor "F/a.jpg")
  rw [if_pos rfl] at hx
  exact hx

@[simp] theorem onThumbReady_totalDeleted (s : AppState) (r c : Nat) (p : String) :
    (onThumbReady s r c p).totalDeleted = s.totalDeleted := (onThumbReady_counters s r c p).2.1

@[simp] theorem onThumbReady_totalKept (s : AppState) (r c : Nat) (p : String) :
    (onThumbReady s r c p).totalKept = s.totalKept := (onThumbReady_counters s r c p).2.2

theorem deleteStep_totalKept (t : String → Bool) (acc : AppState × List DispRecord)
    (rc : Nat × Nat) : (deleteStep t acc rc).1.totalKept = acc.1.totalKept := by
  unfold deleteStep
  cases hs : acc.1.slots.getD (idx rc.1 rc.2) none <;> simp [hs]

theorem deleteStep_totalDeleted_ge (t : String → Bool) (acc : AppState × List DispRecord)
    (rc : Nat × Nat) : acc.1.totalDeleted ≤ (deleteStep t acc rc).1.totalDeleted := by
  unfold deleteStep
  cases hs : acc.1.slots.getD (idx rc.1 rc.2) none
  · simp [hs]
  · simp only [hs]
    repeat' split
    all_goals simp

theorem keepStep_totalDeleted (m : String → Bool) (kd : String)
    (acc : AppState × List DispRecord) (rc : Nat × Nat) :
    (keepStep m kd acc rc).1.totalDeleted = acc.1.totalDeleted := by
  unfold keepStep
  cases hs : acc.1.slots.getD (idx rc.1 rc.2) none
  · simp [hs]
  · simp only [hs]
    split
    · split <;> rfl
    · rfl

theorem keepStep_totalKept_ge (m : String → Bool) (kd : String)
    (acc : AppState × List DispRecord) (rc : Nat × Nat) :
    acc.1.totalKept ≤ (keepStep m kd acc rc).1.totalKept := by
  unfold keepStep
  cases hs : acc.1.slots.getD (idx rc.1 rc.2) none
  · simp [hs]
  · simp only [hs]
    split
    · split
      · simp
      · exact le_refl _
    · exact le_refl _

theorem undoRecord_nonneg (s : AppState) (rec : DispRecord)
    (h : 0 ≤ s.totalDeleted ∧ 0 ≤ s.totalKept) :
    0 ≤ (undoRecord s rec).totalDeleted ∧ 0 ≤ (undoRecord s rec).totalKept := by
  unfold undoRecord
  cases rec.kind <;> dsimp only
  · by_cases hg : rec.backup = "" ∨ fsExists s.fs rec.backup = false
    · rw [if_pos hg]
      exact h
    · rw [if_neg hg]
      cases hr : fsRead s.fs rec.backup with
      | none => exact h
      | some cnt => exact ⟨le_max_left _ _, h.2⟩
  · by_cases hg : rec.backup = "" ∨ fsExists s.fs rec.backup = false
    · rw [if_pos hg]
      exact h
    · rw [if_neg hg]
      cases hr : fsRead s.fs rec.backup with
      | none => exact h
      | some cnt => exact ⟨h.1, le_max_left _ _⟩

theorem fillFold_nonneg (batch : List DispRecord) (s : AppState)
    (h : 0 ≤ s.totalDeleted ∧ 0 ≤ s.totalKept) :
    0 ≤ (batch.foldl (fun st rec => fillSlot st rec.r rec.c) s).totalDeleted ∧
    0 ≤ (batch.foldl (fun st rec => fillSlot st rec.r rec.c) s).totalKept :=
  foldl_invariant _ (fun st => 0 ≤ st.totalDeleted ∧ 0 ≤ st.totalKept)
    (fun a b ha => by simpa using ha) batch s h

theorem step_nonneg (a b : AppState) (hstep : Step a b)
    (h : 0 ≤ a.totalDeleted ∧ 0 ≤ a.totalKept) :
    0 ≤ b.totalDeleted ∧ 0 ≤ b.totalKept := by
  cases hstep with
  | fill r c => simpa using h
  | fillA => simp only [fillAll]; simpa using h
  | thumb r c p => simpa using h
  | del t coords =>
    have hstep' : ∀ (acc : AppState × List DispRecord) (rc : Nat × Nat),
        (0 ≤ acc.1.totalDeleted ∧ 0 ≤ acc.1.totalKept) →
        (0 ≤ (deleteStep t acc rc).1.totalDeleted ∧ 0 ≤ (deleteStep t acc rc).1.totalKept) := by
      intro acc rc hacc
      refine ⟨le_trans hacc.1 (deleteStep_totalDeleted_ge t acc rc), ?_⟩
      rw [deleteStep_totalKept]
      exact hacc.2
    unfold deleteSlots
    apply fillFold_nonneg
    have hres : 0 ≤ (coords.foldl (deleteStep t) (a, [])).1.totalDeleted ∧
        0 ≤ (coords.foldl (deleteStep t) (a, [])).1.totalKept :=
      foldl_invariant _ (fun acc => 0 ≤ acc.1.totalDeleted ∧ 0 ≤ acc.1.totalKept)
        hstep' coords (a, []) h
    split <;> exact hres
  | keepOp m coords =>
    unfold keepSlots
    cases hkd : keptDir a with
    | none => simpa using h
    | some kd =>
      have hstep' : ∀ (acc : AppState × List DispRecord) (rc : Nat × Nat),
          (0 ≤ acc.1.totalDeleted ∧ 0 ≤ acc.1.totalKept) →
          (0 ≤ (keepStep m kd acc rc).1.totalDeleted ∧
           0 ≤ (keepStep m kd acc rc).1.totalKept) := by
        intro acc rc hacc
        refine ⟨?_, le_trans hacc.2 (keepStep_totalKept_ge m kd acc rc)⟩
        rw [keepStep_totalDeleted]
        exact hacc.1
      dsimp only
      apply fillFold_nonneg
      have hres : 0 ≤ (coords.foldl (keepStep m kd) (a, [])).1.totalDeleted ∧
          0 ≤ (coords.foldl (keepStep m kd) (a, [])).1.totalKept :=
        foldl_invariant _ (fun acc => 0 ≤ acc.1.totalDeleted ∧ 0 ≤ acc.1.totalKept)
          hstep' coords (a, []) h
      split <;> exact hres
  | undo =>
    unfold undoLast
    cases hst : a.undoStack with
    | nil => simpa using h
    | cons batch rest =>
      exact foldl_invariant undoRecord (fun st => 0 ≤ st.totalDeleted ∧ 0 ≤ st.totalKept)
        (fun st rec hst₂ => undoRecord_nonneg st rec hst₂) _ _ h
  | load folder =>
    unfold loadFolder
    constructor
    · simp [fillAll]
    · simp [fillAll]
      exact h.2

/-- Claim C10: in every reachable state the discarded and kept counters are
non-negative — dispositions only increment them, a load resets the discard
counter, and undo decrements with the `max(0, · − 1)` clamp, so even an
over-applied undo cannot drive either counter below zero. -/
theorem c10_counters_nonneg (s : AppState) (h : Reachable s) :
    0 ≤ s.totalDeleted ∧ 0 ≤ s.totalKept := by
  obtain ⟨fs₀, hchain⟩ := h
  induction hchain with
  | refl => exact ⟨le_refl 0, le_refl 0⟩
  | tail hsteps hstep ih => exact step_nonneg _ _ hstep ih

/-- Witness for C10 at the freshly initialised application state. -/
theorem c10_counters_nonneg_witness :
    0 ≤ (initState []).totalDeleted ∧ 0 ≤ (initState []).totalKept :=
  c10_counters_nonneg (initState []) ⟨[], Relation.ReflTransGen.refl⟩

theorem natDecStr_data (n : Nat) : (natDecStr n).data = natDec n := rfl

theorem mid_nat_inj (pre suf : List Char) (i j : Nat)
    (h : (pre ++ natDec i) ++ suf = (pre ++ natDec j) ++ suf) : i = j :=
  natDec_inj i j (List.append_cancel_left (List.append_cancel_right h))

theorem natDec_head_digit (n : Nat) :
    ∃ d ds, natDec n = d :: ds ∧ 48 ≤ d.toNat ∧ d.toNat ≤ 57 := by
  cases hnd : natDec n with
  | nil => exact absurd hnd (natDec_ne_nil n)
  | cons d ds =>
    have hmem : d ∈ natDec n := by rw [hnd]; exact List.mem_cons_self d ds
    obtain ⟨h1, h2⟩ := natDec_all_digits n d hmem
    exact ⟨d, ds, rfl, h1, h2⟩

theorem string_mid_nat_inj (P S : String) (i j : Nat)
    (h : P ++ natDecStr i ++ S = P ++ natDecStr j ++ S) : i = j := by
  have hd := congrArg String.data h
  simp only [String.data_append, natDecStr_data] at hd
  exact mid_nat_inj P.data S.data i j hd

theorem withName_inj (p n₁ n₂ : String) (h : withName p n₁ = withName p n₂) : n₁ = n₂ := by
  unfold withName at h
  by_cases hd : dirName p = ""
  · rwa [if_pos hd, if_pos hd] at h
  · rw [if_neg hd, if_neg hd] at h
    unfold joinPath at h
    have hdata := congrArg String.data h
    simp only [String.data_append] at hdata
    exact congrArg String.mk (List.append_cancel_left hdata)

theorem rCand_inj (orig : String) (i j : Nat) (h : rCand orig i = rCand orig j) : i = j := by
  unfold rCand at h
  exact string_mid_nat_inj ((stemSuffix (fileName orig)).1 ++ "_restored_")
    ((stemSuffix (fileName orig)).2) i j (withName_inj orig _ _ h)

theorem restoredIndex_spec (fs : FS) (orig : String) :
    1 ≤ restoredIndex fs orig ∧
    fsExists fs (rCand orig (restoredIndex fs orig)) = false ∧
    ∀ m, 1 ≤ m → m < restoredIndex fs orig → fsExists fs (rCand orig m) = true := by
  unfold restoredIndex
  obtain ⟨k, hk, hfree⟩ := exists_free_index fs (rCand orig) (rCand_inj orig)
  obtain ⟨h1, h2, h3⟩ := searchFrom_spec (fun i => !(fsExists fs (rCand orig i)))
    (fs.length + 1) 1 ⟨k, hk, by simp [hfree]⟩
  refine ⟨h2, by simpa using h1, ?_⟩
  intro m hm1 hm2
  simpa using h3 m hm1 hm2

theorem restored_pattern_distinct (stem suf : String) (i j : Nat) :
    stem ++ "_restored_" ++ natDecStr i ++ suf ≠ stem ++ "_" ++ natDecStr j ++ suf := by
  intro h
  have hd := congrArg String.data h
  simp only [String.data_append, natDecStr_data, List.append_assoc] at hd
  have h2 := List.append_cancel_left hd
  simp only [List.cons_append, List.singleton_append] at h2
  injection h2 with _ h3
  obtain ⟨d, ds, hnd, hd1, hd2⟩ := natDec_head_digit j
  rw [hnd] at h3
  simp only [List.cons_append] at h3
  injection h3 with h4 _
  have h5 : ('r' : Char).toNat = d.toNat := congrArg Char.toNat h4
  have hr : ('r' : Char).toNat = 114 := rfl
  omega

/-- Claim C7: undoing a discard whose original location is occupied restores to the
renamed path `stem_restored_N.suffix` built by `with_name` — never
overwriting the occupying file — where `N` is the smallest index ≥ 1 whose
candidate does not exist; and that name is distinct from every keep-collision
candidate `stem_N.suffix` for the same original. -/
theorem c7_restore_collision_naming (s : AppState) (r c : Nat) (orig b cnt : String)
    (rest : List (List DispRecord))
    (hstack : s.undoStack = [⟨r, c, orig, b, OpKind.delete⟩] :: rest)
    (hb : b ≠ "")
    (hbread : fsRead s.fs b = some cnt)
    (hex : fsExists s.fs orig = true)
    (hlen : idx r c < s.slots.length) :
    (undoLast s).slots.getD (idx r c) none
        = some (rCand orig (restoredIndex s.fs orig)) ∧
    fsRead (undoLast s).fs (rCand orig (restoredIndex s.fs orig)) = some cnt ∧
    fsExists s.fs (rCand orig (restoredIndex s.fs orig)) = false ∧
    1 ≤ restoredIndex s.fs orig ∧
    (∀ m, 1 ≤ m → m < restoredIndex s.fs orig → fsExists s.fs (rCand orig m) = true) ∧
    fsRead (undoLast s).fs orig = fsRead s.fs orig ∧
    (∀ j, rCand orig (restoredIndex s.fs orig)
        ≠ withName orig ((stemSuffix (fileName orig)).1 ++ "_" ++ natDecStr j
            ++ (stemSuffix (fileName orig)).2)) := by
  obtain ⟨hge, hfree, hmin⟩ := restoredIndex_spec s.fs orig
  have hne : orig ≠ rCand orig (restoredIndex s.fs orig) := by
    intro he
    rw [← he] at hfree
    rw [hex] at hfree
    exact Bool.noConfusion hfree
  unfold undoLast
  rw [hstack]
  dsimp only
  rw [List.foldl_cons, List.foldl_nil]
  unfold undoRecord
  dsimp only
  rw [if_neg (by simp [hb, fsExists, hbread])]
  rw [hbread]
  dsimp only
  unfold restoredTarget
  rw [hex]
  rw [if_pos rfl]
  unfold insertIntoSlot
  dsimp only
  refine ⟨?_, ?_, hfree, hge, hmin, ?_, ?_⟩
  · rw [List.getD_eq_getElem?_getD, List.getElem?_set_eq_of_lt _ hlen]
    rfl
  · exact fsRead_fsSet_self _ _ _
  · exact fsRead_fsSet_ne _ _ _ _ hne
  · intro j h'
    exact restored_pattern_distinct (stemSuffix (fileName orig)).1
      (stemSuffix (fileName orig)).2 (restoredIndex s.fs orig) j (withName_inj orig _ _ h')

/-- Witness for C7 on a concrete collision state (the backup `OLD` content is
restored to `F/a_restored_1.jpg` while the occupying `NEW` file survives). -/
theorem c7_restore_collision_naming_witness :
    (undoLast c7State).slots.getD (idx 0 0) none
        = some (rCand "F/a.jpg" (restoredIndex c7State.fs "F/a.jpg")) ∧
    fsRead (undoLast c7State).fs (rCand "F/a.jpg" (restoredIndex c7State.fs "F/a.jpg"))
        = some "OLD" ∧
    fsExists c7State.fs (rCand "F/a.jpg" (restoredIndex c7State.fs "F/a.jpg")) = false ∧
    1 ≤ restoredIndex c7State.fs "F/a.jpg" ∧
    fsRead (undoLast c7State).fs "F/a.jpg" = fsRead c7State.fs "F/a.jpg" ∧
    rCand "F/a.jpg" (restoredIndex c7State.fs "F/a.jpg")
      ≠ withName "F/a.jpg" ((stemSuffix (fileName "F/a.jpg")).1 ++ "_" ++ natDecStr 1
          ++ (stemSuffix (fileName "F/a.jpg")).2) := by
  have h := c7_restore_collision_naming c7State 0 0 "F/a.jpg" "BKP/x.jpg" "OLD" []
    (by decide) (by decide) (by decide) (by decide) (by decide)
  exact ⟨h.1, h.2.1, h.2.2.1, h.2.2.2.1, h.2.2.2.2.2.1, h.2.2.2.2.2.2 1⟩

end GridImgViewer

